import Mathlib

/-!
Verification of the juju-compose composition engine against its
natural-language specification.

The definitions below are a shallow embedding of the Python sources
(`juju_compose/__init__.py`, `juju_compose/tactics.py`,
`juju_compose/config.py`, `juju_compose/utils.py`).  Parsed YAML/JSON
documents are modelled by the inductive type `Val`; Python dicts become
association lists preserving insertion order (`OrderedDict`/`dict`
semantics: updating an existing key keeps its position, a new key is
appended at the end); exceptions become the error channel of `Except`.
External collaborators (the `fnmatch` glob matcher, `pathspec` ignore
matching, SHA-256 hashing) are threaded through as function parameters,
since they are library code outside the repository.

The file is organised as definitions first, then the theorems.
-/

namespace JujuCompose

/-- Parsed structured document values (YAML/JSON), as produced by
`yaml.load`/`json.load` in the sources.  Mappings are insertion-ordered
association lists, mirroring Python dicts. -/
inductive Val where
  | vnull : Val
  | vbool : Bool → Val
  | vint : Int → Val
  | vstr : String → Val
  | vlist : List Val → Val
  | vmap : List (String × Val) → Val

/-- Python truthiness of a document value (`if x:`). -/
def truthyV : Val → Bool
  | .vnull => false
  | .vbool b => b
  | .vint n => n != 0
  | .vstr s => s != ""
  | .vlist l => !l.isEmpty
  | .vmap m => !m.isEmpty

/-- `isinstance(v, dict)`. -/
def isMapV : Val → Bool
  | .vmap _ => true
  | _ => false

/-- `d.get(k)` / `d[k]` lookup on an association-list mapping: the value
at the first occurrence of `k`. -/
def getKeyV : List (String × Val) → String → Option Val
  | [], _ => none
  | (k', v) :: rest, k => if k' = k then some v else getKeyV rest k

/-- `d[k] = v` on a dict: replace in place if the key exists, else append;
insertion order is preserved. -/
def setKeyV : List (String × Val) → String → Val → List (String × Val)
  | [], k, v => [(k, v)]
  | (k', v') :: rest, k, v =>
      if k' = k then (k', v) :: rest else (k', v') :: setKeyV rest k v

/-- `k in d`. -/
def hasKeyV (m : List (String × Val)) (k : String) : Bool :=
  (getKeyV m k).isSome

/-- `del d[k]`.  Dict keys are unique, so removing every occurrence of
`k` from the association list is removing the single entry. -/
def delKeyV (m : List (String × Val)) (k : String) : List (String × Val) :=
  m.filter (fun kv => kv.1 ≠ k)

/-- `s.startswith(pre)`. -/
def strStartsWith (s pre : String) : Bool :=
  pre.data.isPrefixOf s.data

/-! ### `utils.deepmerge`

```python
def deepmerge(dest, src):
    for k, v in src.iteritems():
        if dest.get(k) and isinstance(v, dict):
            deepmerge(dest[k], v)
        else:
            dest[k] = copy.deepcopy(v)
    return dest
```

In the value model `copy.deepcopy` is the identity, the in-place
mutation of `dest` becomes returning the updated value, and the Python
`AttributeError` raised by `dest.get(k)`/`src.iteritems()` on a
non-dict receiver becomes `Except.error`.  Note the guard tests the
*truthiness* of `dest.get(k)` (absent keys give `None`, hence falsy),
not that the destination value is itself a mapping. -/

mutual

/-- Model of `utils.deepmerge`. -/
def deepmerge (dest src : Val) : Except Unit Val :=
  match src with
  | .vmap pairs => deepmergePairs dest pairs
  | _ => .error ()

/-- The `for k, v in src.iteritems()` loop of `deepmerge`. -/
def deepmergePairs (dest : Val) (pairs : List (String × Val)) : Except Unit Val :=
  match pairs with
  | [] => .ok dest
  | (k, v) :: rest =>
      match dest with
      | .vmap m =>
          let dv := (getKeyV m k).getD Val.vnull
          if truthyV dv && isMapV v then
            match deepmerge dv v with
            | .ok r => deepmergePairs (.vmap (setKeyV m k r)) rest
            | .error e => .error e
          else
            deepmergePairs (.vmap (setKeyV m k v)) rest
      | _ => .error ()

end

mutual

/-- The deep-merge rule in the words of the specification (used only to
compare with the source-derived `deepmerge`): for each key in source,
if both sides map to a mapping, recurse; otherwise the source value
replaces the destination value.  Total: it never fails. -/
def deepmergeSpec (dest src : Val) : Val :=
  match src with
  | .vmap pairs => deepmergeSpecPairs dest pairs
  | _ => dest

/-- Key loop of `deepmergeSpec`. -/
def deepmergeSpecPairs (dest : Val) (pairs : List (String × Val)) : Val :=
  match pairs with
  | [] => dest
  | (k, v) :: rest =>
      match dest with
      | .vmap m =>
          match getKeyV m k, v with
          | some (.vmap dm), .vmap sp =>
              deepmergeSpecPairs (.vmap (setKeyV m k (deepmergeSpecPairs (.vmap dm) sp))) rest
          | _, _ => deepmergeSpecPairs (.vmap (setKeyV m k v)) rest
      | _ => dest

end

/-! ### `utils.delete_path`

```python
def delete_path(path, obj):
    parts = path.split('.')
    for p in parts[:-1]:
        obj = obj[p]
    del obj[parts[-1]]
```

`obj[p]` raises `KeyError` on a missing key and `TypeError` when `obj`
is not a mapping; `del obj[k]` likewise.  The value model returns the
whole updated document. -/

/-- Split a character list on a separator character.  An empty input
gives `[[]]`, mirroring Python's `"".split('.') == ['']`. -/
def splitOnChar (c : Char) : List Char → List (List Char)
  | [] => [[]]
  | x :: xs =>
      let r := splitOnChar c xs
      if x = c then [] :: r
      else
        match r with
        | [] => [[x]]
        | y :: ys => (x :: y) :: ys

/-- Python's `s.split('.')` (the only split the source performs on
dotted paths).  Defined structurally so that concrete instances
evaluate. -/
def splitDots (s : String) : List String :=
  (splitOnChar '.' s.data).map (fun l => String.mk l)

/-- Descend/delete along the already-split component list. -/
def deletePathParts : List String → Val → Except Unit Val
  | [], _ => .error ()
  | [k], .vmap m =>
      if hasKeyV m k then .ok (.vmap (delKeyV m k)) else .error ()
  | [_], _ => .error ()
  | p :: q :: rest, .vmap m =>
      match getKeyV m p with
      | some v =>
          match deletePathParts (q :: rest) v with
          | .ok v' => .ok (.vmap (setKeyV m p v'))
          | .error e => .error e
      | none => .error ()
  | _ :: _ :: _, _ => .error ()

/-- Model of `utils.delete_path`. -/
def delete_path (p : String) (obj : Val) : Except Unit Val :=
  deletePathParts (splitDots p) obj

/-- Every component of the dotted path is present: intermediate
components resolve to mappings containing the next component, and the
final component is a key of the mapping reached. -/
def presentPath : List String → Val → Bool
  | [], _ => false
  | [k], .vmap m => hasKeyV m k
  | [_], _ => false
  | p :: q :: rest, .vmap m =>
      match getKeyV m p with
      | some v => presentPath (q :: rest) v
      | none => false
  | _ :: _ :: _, _ => false

/-! ### `Composer.validate` (the delta gate)

```python
def validate(self):
    p = self.target_dir / ".composer.manifest"
    if not p.exists():
        return
    a, c, d = utils.delta_signatures(p)
    ... warnings ...
    if a or c or d:
        if self.force is False:
            log.info("Continuing with known changes to target layer. "
                     "Changes will be overwritten")
        else:
            raise ValueError(
                "Unable to continue due to unexpected modifications")
```

`a`, `c`, `d` are the added/changed/deleted sets computed by the delta
detector (`utils.delta_signatures`); `self.force` is the `-f` (`--force`)
CLI flag (`store_true`, default `False`). -/

/-- Model of `Composer.validate`: `manifestExists` is whether
`.composer.manifest` exists in the target, `a`/`c`/`d` the delta
detector's added/changed/deleted sets, `force` the `--force` flag. -/
def validate (manifestExists : Bool) (a c d : List String) (force : Bool) :
    Except String Unit :=
  if manifestExists = false then .ok ()
  else if !(a.isEmpty && c.isEmpty && d.isEmpty) then
    if force = false then .ok ()
    else .error "Unable to continue due to unexpected modifications"
  else .ok ()

/-! ### `Composer.plan_interfaces` -/

/-- One appended interface tactic: `tactics.InterfaceCopy(iface,
relation_name, ...)` or `tactics.InterfaceBind(iface, relation_name,
kind, ...)`, identified by the interface name, the relation name and
(for bind) the relation kind. -/
inductive PlanItem where
  | interfaceCopy (ifaceName relationName : String)
  | interfaceBind (ifaceName relationName kind : String)
deriving DecidableEq

/-- The relation sections of the merged `metadata.yaml`: each entry is
`(relation-name, v["interface"])` in document order. -/
structure CharmMeta where
  provides : List (String × String)
  requires : List (String × String)
  peer : List (String × String)

/-- Model of `Composer.plan_interfaces`, returning the tactics it
appends to the plan.  `meta` is the materialised merged `metadata.yaml`
(`none` when `metadata.yaml` is not in the plan); `ifaceNames` the
names of the fetched Interfaces in order.  Mirrors the source: `specs`
enumerates every relation under provides/requires/peer as
`[kind, name, interface]`; fetched interfaces whose name is in no spec
are skipped with a warning; for each remaining interface the code
appends an `InterfaceCopy` and an `InterfaceBind` for **every** spec
(the loop never compares `interface_name` with `iface.name`). -/
def plan_interfaces (meta : Option CharmMeta) (ifaceNames : List String) :
    Except String (List PlanItem) :=
  match meta with
  | some m =>
      let specs := m.provides.map (fun p => ("provides", p.1, p.2))
        ++ m.requires.map (fun p => ("requires", p.1, p.2))
        ++ m.peer.map (fun p => ("peer", p.1, p.2))
      let used := specs.map (fun s => s.2.2)
      .ok (ifaceNames.foldl (fun acc iname =>
        if used.contains iname then
          specs.foldl (fun acc2 s =>
            acc2 ++ [PlanItem.interfaceCopy iname s.2.1,
                     PlanItem.interfaceBind iname s.2.1 s.1]) acc
        else acc) [])
  | none =>
      if ifaceNames.isEmpty then .ok []
      else .error "Includes interfaces but no metadata.yaml to bind them"

/-! ### `Composer.fetch_dep`

```python
def fetch_dep(self, layer, results):
    baselayers = layer.config.get('includes', [])
    if not baselayers:
        return
    if isinstance(baselayers, str):
        baselayers = [baselayers]
    for base in baselayers:
        if base.startswith("interface:"):
            iface = Interface(base, self.deps).fetch()
            results["interfaces"].append(iface)
        else:
            base_layer = Layer(base, self.deps).fetch()
            self.fetch_dep(base_layer, results)
            results["layers"].append(base_layer)
```

There is no visiting set and no cycle check of any kind.  Layers are
identified by their reference string; the include graph (the
`includes` list of each layer's `composer.yaml`, scalars already
promoted to singletons) is an association list.  The Python
interpreter's recursion limit is modelled by explicit fuel: exhausting
it is the `RecursionError` the interpreter raises on unbounded
recursion. -/

/-- The only failure `fetch_dep` itself can produce on a cyclic graph:
the interpreter's recursion limit. -/
inductive FetchErr where
  | recursionError : FetchErr
deriving DecidableEq

/-- The mutable `results` dict of `fetch_deps`/`fetch_dep`. -/
structure DepResults where
  layers : List String
  interfaces : List String
deriving DecidableEq

/-- Lookup of a layer's `includes` list in the include graph
(`layer.config.get('includes', [])`). -/
def includesOf (g : List (String × List String)) (ref : String) : List String :=
  match g with
  | [] => []
  | (r, incs) :: rest => if r = ref then incs else includesOf rest ref

mutual

/-- Model of `Composer.fetch_dep`, with `fuel` the remaining recursion
depth allowed by the interpreter. -/
def fetch_dep (g : List (String × List String)) :
    Nat → String → DepResults → Except FetchErr DepResults
  | 0, _, _ => .error .recursionError
  | Nat.succ fuel, ref, acc =>
      let baselayers := includesOf g ref
      if baselayers.isEmpty then .ok acc
      else fetchBases g fuel baselayers acc
termination_by fuel ref acc => (fuel, 0)

/-- The `for base in baselayers` loop of `fetch_dep`. -/
def fetchBases (g : List (String × List String)) :
    Nat → List String → DepResults → Except FetchErr DepResults
  | _, [], acc => .ok acc
  | fuel, base :: rest, acc =>
      if strStartsWith base "interface:" then
        fetchBases g fuel rest
          { acc with interfaces := acc.interfaces ++ [base] }
      else
        match fetch_dep g fuel base acc with
        | .ok acc' =>
            fetchBases g fuel rest
              { acc' with layers := acc'.layers ++ [base] }
        | .error e => .error e
termination_by fuel l acc => (fuel, l.length + 1)

end

/-! ### Path primitives

The repository's `path` module (a vendored `path.py`) wraps the
standard `posixpath` functions; the relevant operations are modelled
below over `/`-separated relative path strings.  Where the vendored
module is not part of the sources, the two-segment normalisation
follows the spec: "first split on path separators, take the last two
segments joined by `/`". -/

/-- Join strings with a separator (`sep.join(parts)`). -/
def joinStrings (sep : String) : List String → String
  | [] => ""
  | [x] => x
  | x :: y :: rest => x ++ sep ++ joinStrings sep (y :: rest)

/-- Split a path string on `/`. -/
def splitSlash (s : String) : List String :=
  (splitOnChar '/' s.data).map (fun l => String.mk l)

/-- `posixpath.dirname` of a relative path: everything before the last
`/`, the empty string when there is none. -/
def dirname (s : String) : String :=
  joinStrings "/" (splitSlash s).dropLast

/-- Index of the last occurrence of a character. -/
def lastIdxOf (c : Char) : List Char → Option Nat
  | [] => none
  | x :: xs =>
      match lastIdxOf c xs with
      | some i => some (i + 1)
      | none => if x = c then some 0 else none

/-- Is there an index `i` with `lo ≤ i < hi` whose character is not a
dot?  (The `while filenameIndex < dotIndex` scan of
`posixpath.splitext`: a basename consisting only of leading dots has
no extension.) -/
def existsNonDotBetween (l : List Char) (lo hi : Nat) : Bool :=
  (List.range l.length).any (fun i =>
    decide (lo ≤ i) && decide (i < hi) && (((l.get? i).getD '.') != '.'))

/-- `posixpath.splitext(s)[1]`: the extension including its dot, or
`""`.  The last dot must come after the last `/` and after at least
one non-dot character of the basename. -/
def splitextExt (s : String) : String :=
  let l := s.data
  match lastIdxOf '.' l with
  | none => ""
  | some di =>
      let lo := match lastIdxOf '/' l with
        | none => 0
        | some si => si + 1
      if lo ≤ di then
        if existsNonDotBetween l lo di then String.mk (l.drop di) else ""
      else ""

/-- The two-segment repo-relative form: the last two path segments
joined by `/` (`"/".join(p.splitall()[-2:])`, per the spec's
normalisation rule). -/
def lastTwoJoined (parts : List String) : String :=
  joinStrings "/" (parts.drop (parts.length - 2))

/-- Two-segment form of a path given as a string. -/
def lastTwoOfPath (s : String) : String :=
  lastTwoJoined (splitSlash s)

/-! ### Tactic registry and dispatch (`tactics.DEFAULT_TACTICS`,
`ComposerConfig.tactic`)

Each tactic class carries a `trigger(relpath)` class method; dynamic
loading of layer-local custom tactic classes (`load_tactic`,
`execfile`) is external code, so the registry modelled here is the
built-in `DEFAULT_TACTICS` with no custom prepends.  `fnmatch.fnmatch`
is Python library code and is threaded through as the parameter
`fm`. -/

/-- The built-in tactic classes, in registry order. -/
inductive TClass where
  | ManifestTactic : TClass
  | InstallerTactic : TClass
  | MetadataYAML : TClass
  | ConfigYAML : TClass
  | ComposerYAML : TClass
  | HookTactic : TClass
  | ActionTactic : TClass
  | CopyTactic : TClass
deriving DecidableEq

/-- The `trigger` class methods, from `tactics.py`. -/
def trigger : TClass → String → Bool
  | .ManifestTactic, rel => rel == ".composer.manifest"
  | .InstallerTactic, rel => splitextExt rel == ".pypi"
  | .MetadataYAML, rel => rel == "metadata.yaml"
  | .ConfigYAML, rel => rel == "config.yaml"
  | .ComposerYAML, rel => rel == "composer.yaml"
  | .HookTactic, rel => dirname rel == "hooks"
  | .ActionTactic, rel => dirname rel == "actions"
  | .CopyTactic, _ => true

/-- `tactics.DEFAULT_TACTICS`, in source order. -/
def DEFAULT_TACTICS : List TClass :=
  [.ManifestTactic, .InstallerTactic, .MetadataYAML, .ConfigYAML,
   .ComposerYAML, .HookTactic, .ActionTactic, .CopyTactic]

/-- A layer's parsed `composer.yaml` as far as dispatch is concerned:
its `ignore` key.  A missing/empty config is `none` at use sites
(`if next_config:` tests dict truthiness). -/
structure LayerCfg where
  ignore : Option (List String)

/-- The ignore gate at the top of `ComposerConfig.tactic`: patterns of
the *next* layer's config are matched with `fnmatch` against the
entry's relative path. -/
def ignoredBy (fm : String → String → Bool) (cfg : Option LayerCfg)
    (rel : String) : Bool :=
  match cfg with
  | none => false
  | some c =>
      match c.ignore with
      | none => false
      | some pats => pats.any (fun pat => fm rel pat)

/-- Model of `ComposerConfig.tactic` dispatch: `None` when an ignore
pattern matches, otherwise the first registry entry whose trigger
holds (`None` if none does — unreachable, `CopyTactic` always
matches). -/
def tacticFor (fm : String → String → Bool) (cfg : Option LayerCfg)
    (rel : String) : Option TClass :=
  if ignoredBy fm cfg rel then none
  else DEFAULT_TACTICS.find? (fun t => trigger t rel)

/-! ### Planner (`Composer.build_tactics` / `Composer.plan_layers`)

`output_files` is an `OrderedDict` from output-relative path to a
tactic instance or `None`; layers are walked bottom-up, each file
dispatched under the *next* layer's config, and a repeated path folds
the new tactic over the existing one via `combine`. -/

/-- Generic ordered-dict lookup. -/
def findVal {α : Type} : List (String × α) → String → Option α
  | [], _ => none
  | (k', v) :: rest, k => if k' = k then some v else findVal rest k

/-- Generic ordered-dict update: replace in place, else append. -/
def updVal {α : Type} : List (String × α) → String → α → List (String × α)
  | [], k, v => [(k, v)]
  | (k', v') :: rest, k, v =>
      if k' = k then (k', v) :: rest else (k', v') :: updVal rest k v

/-- A layer: its resolved directory (as path segments), the relative
paths its walk yields in order, and its parsed config. -/
structure LayerM where
  dirParts : List String
  files : List String
  cfg : Option LayerCfg

/-- A tactic instance as the planner creates it: class, entry relpath,
owning (current) layer, effective config (the layer above), target
layer, and — for serialized tactics after `combine` — the previous
tactic whose accumulated data seeds this one. -/
inductive TacticM where
  | mk (klass : TClass) (rel : String) (current : LayerM)
       (cfg : Option LayerCfg) (target : LayerM)
       (folded : Option TacticM) : TacticM

/-- The class of a tactic instance. -/
def TacticM.klass : TacticM → TClass
  | .mk k _ _ _ _ _ => k

/-- The entry's relative path. -/
def TacticM.rel : TacticM → String
  | .mk _ r _ _ _ _ => r

/-- The owning layer. -/
def TacticM.current : TacticM → LayerM
  | .mk _ _ c _ _ _ => c

/-- The folded-under previous tactic, if any. -/
def TacticM.folded : TacticM → Option TacticM
  | .mk _ _ _ _ _ f => f

/-- Replace the folded component. -/
def TacticM.setFolded : TacticM → Option TacticM → TacticM
  | .mk k r c cfg t _, f => .mk k r c cfg t f

/-- The serialized (merge-accumulating) classes: subclasses of
`SerializedTactic` among the defaults. -/
def isSerialized : TClass → Bool
  | .MetadataYAML => true
  | .ConfigYAML => true
  | .ComposerYAML => true
  | _ => false

/-- A fresh tactic instance
(`tactic(target=..., entity=..., current=..., config=...)`). -/
def mkTactic (k : TClass) (rel : String) (current : LayerM)
    (cfg : Option LayerCfg) (target : LayerM) : TacticM :=
  .mk k rel current cfg target none

/-- `current.combine(existing)`: the base `Tactic.combine` returns
`self` (the new tactic, dropping the old); `SerializedTactic.combine`
additionally runs the existing tactic and captures its accumulated
data, modelled by keeping the existing tactic folded beneath the new
one.  Either way the surviving instance is the *new* tactic. -/
def combineT (cur ex : TacticM) : TacticM :=
  if isSerialized cur.klass then cur.setFolded (some ex) else cur

/-- `Tactic.repo_path`: the two-segment repo-relative reference of the
owning layer (`"/".join(self.current.directory.splitall()[-2:])`). -/
def TacticM.repoPath (t : TacticM) : String :=
  lastTwoJoined t.current.dirParts

/-- `Tactic.kind` as used in signatures: `dynamic` for serialized
tactics, `static` otherwise. -/
def kindOf (k : TClass) : String :=
  if isSerialized k then "dynamic" else "static"

/-- `Tactic.sign`: when the produced target file exists (with content
hash `sha`), `{relpath: (repo_path, kind, sha)}`. -/
def TacticM.sign (t : TacticM) (present : Bool) (sha : String) :
    List (String × (String × String × String)) :=
  if present then [(t.rel, (t.repoPath, kindOf t.klass, sha))] else []

/-- Model of `Composer.build_tactics` for one walked entry: dispatch a
tactic under the next layer's config, fold it over any existing tactic
at the same relative path via `combine`, and store it.  A `None`
dispatch result alongside an existing tactic is the source's
`None.combine(existing)` crash (`AttributeError`). -/
def build_tactics (fm : String → String → Bool) (target layer : LayerM)
    (cfg : Option LayerCfg) (outF : List (String × Option TacticM))
    (rel : String) : Except Unit (List (String × Option TacticM)) :=
  let current? := (tacticFor fm cfg rel).map
    (fun k => mkTactic k rel layer cfg target)
  match (findVal outF rel).getD none with
  | some ex =>
      match current? with
      | some cur => .ok (updVal outF rel (some (combineT cur ex)))
      | none => .error ()
  | none => .ok (updVal outF rel current?)

/-- The walk of one layer inside `Composer.plan_layers`: every file of
the layer in walk order, threaded through `build_tactics`. -/
def walkFiles (fm : String → String → Bool) (target layer : LayerM)
    (cfg : Option LayerCfg) :
    List String → List (String × Option TacticM) →
    Except Unit (List (String × Option TacticM))
  | [], outF => .ok outF
  | rel :: rest, outF =>
      match build_tactics fm target layer cfg outF rel with
      | .ok outF' => walkFiles fm target layer cfg rest outF'
      | .error e => .error e

/-- Model of `Composer.plan_layers`: process layers bottom-up; layer
`i`'s entries are dispatched under `layers[i+1].config` (the last
layer under no config). -/
def plan_layers (fm : String → String → Bool) (target : LayerM) :
    List LayerM → List (String × Option TacticM) →
    Except Unit (List (String × Option TacticM))
  | [], outF => .ok outF
  | l :: rest, outF =>
      let cfg := match rest with
        | [] => none
        | nxt :: _ => nxt.cfg
      match walkFiles fm target l cfg l.files outF with
      | .ok outF' => plan_layers fm target rest outF'
      | .error e => .error e

/-- `plan = [t for t in output_files.values() if t]`. -/
def planOf (outF : List (String × Option TacticM)) : List TacticM :=
  outF.filterMap (fun kv => kv.2)

/-- The value `build_tactics` stores at `rel` (used to state the walk
characterisation): the dispatched tactic, combined over the existing
entry when one is present. -/
def newEntry (fm : String → String → Bool) (target layer : LayerM)
    (cfg : Option LayerCfg) (outF : List (String × Option TacticM))
    (rel : String) : Option TacticM :=
  match (findVal outF rel).getD none with
  | some ex => (tacticFor fm cfg rel).map
      (fun k => combineT (mkTactic k rel layer cfg target) ex)
  | none => (tacticFor fm cfg rel).map
      (fun k => mkTactic k rel layer cfg target)

/-! ### `ComposerYAML.__call__` -/

/-- Normalise one entry of `includes`: entries containing `:` are kept,
others are reduced to their two-segment form. -/
def normIncludeEntry (v : Val) : Val :=
  match v with
  | .vstr s => .vstr (if s.data.contains ':' then s else lastTwoOfPath s)
  | _ => v

/-- The `for i in inc` normalisation loop; a non-string entry makes
`":" in i` raise `TypeError` (`none`). -/
def normIncludes : List Val → Option (List Val)
  | [] => some []
  | .vstr s :: rest =>
      (normIncludes rest).map
        (fun r => Val.vstr (if s.data.contains ':' then s else lastTwoOfPath s) :: r)
  | _ :: _ => none

/-- Model of `ComposerYAML.__call__`: `curDirParts` are the segments of
`self.current.directory`, `raw` the document loaded by `read()`
(`none` when the file had no parsed content — the tactic then writes
nothing).  Sets `is` to the two-segment current-layer path *only when
the key is absent*, normalises `includes` entries without a `:` to
their two-segment form (writing the list back only when non-empty),
and dumps the document.  Non-mapping documents and non-string include
entries error (`TypeError` territory in the source). -/
def composer_yaml_call (curDirParts : List String) (raw : Option Val) :
    Except Unit (Option Val) :=
  match raw with
  | none => .ok none
  | some (Val.vmap m) =>
      let m1 := if hasKeyV m "is" then m
                else setKeyV m "is" (Val.vstr (lastTwoJoined curDirParts))
      match (getKeyV m1 "includes").getD (Val.vlist []) with
      | Val.vlist items =>
          match normIncludes items with
          | some norm =>
              let m2 := if norm.isEmpty then m1
                        else setKeyV m1 "includes" (Val.vlist norm)
              .ok (some (Val.vmap m2))
          | none => .error ()
      | _ => .error ()
  | some _ => .error ()

/-! ### Filesystem model for `InterfaceCopy` / `InterfaceBind`

Only what the two tactics touch: regular files (path, content, mode)
and the set of directories created with `makedirs_p`.  A directory
exists when it was created or when some file lives beneath it. -/

/-- A regular file: text content and permission bits. -/
structure FileM where
  text : String
  mode : Nat
deriving DecidableEq

/-- The filesystem state. -/
structure FSM where
  files : List (String × FileM)
  dirs : List String
deriving DecidableEq

/-- Look up a regular file. -/
def fsGet (fs : FSM) (p : String) : Option FileM :=
  findVal fs.files p

/-- Create or overwrite a regular file. -/
def fsWrite (fs : FSM) (p : String) (f : FileM) : FSM :=
  { fs with files := updVal fs.files p f }

/-- `makedirs_p`. -/
def mkdirp (fs : FSM) (d : String) : FSM :=
  if fs.dirs.contains d then fs else { fs with dirs := fs.dirs ++ [d] }

/-- Does a directory exist?  Either created explicitly or implied by a
file beneath it. -/
def dirExists (fs : FSM) (d : String) : Bool :=
  fs.dirs.contains d || fs.files.any (fun kv => strStartsWith kv.1 (d ++ "/"))

/-- An ASCII apostrophe, for building the generated hook bodies. -/
def squote : String :=
  (Char.ofNat 39).toString

/-- `InterfaceBind.DEFAULT_BINDING` with the relation name formatted
in: a script delegating to the reactive dispatcher. -/
def DEFAULT_BINDING (relation_name : String) : String :=
  "#!/usr/bin/env python\nfrom charmhelpers.core.reactive import main\nmain("
    ++ squote ++ relation_name ++ squote ++ ")\n"

/-- The four relation hook suffixes, in source order. -/
def hookSuffixes : List String := ["joined", "changed", "broken", "departed"]

/-- Path of one generated relation hook:
`self._target / "hooks" / "<rel>-relation-<hook>"`. -/
def bindHookPath (targetDir rel hook : String) : String :=
  targetDir ++ "/hooks/" ++ rel ++ "-relation-" ++ hook

/-- One iteration of the `for hook in [...]` loop of
`InterfaceBind.__call__`: skip if the hook file already exists
(`XXX: warn`), else ensure `hooks/` exists, write the binding script
and `chmod 0755` it (`0o755 = 493`). -/
def bindStep (targetDir rel : String) (acc : FSM) (hook : String) : FSM :=
  let tp := bindHookPath targetDir rel hook
  if (fsGet acc tp).isSome then acc
  else
    let acc1 := if dirExists acc (targetDir ++ "/hooks") then acc
                else mkdirp acc (targetDir ++ "/hooks")
    fsWrite acc1 tp { text := DEFAULT_BINDING rel, mode := 493 }

/-- Model of `InterfaceBind.__call__`: the loop over the four relation
hooks. -/
def interface_bind_call (fs : FSM) (targetDir rel : String) : FSM :=
  hookSuffixes.foldl (bindStep targetDir rel) fs

/-- Model of `InterfaceBind.sign`: each of the four hooks is recorded
under its target-relative path as `(interface url, "dynamic",
sha256-of-content)`; `utils.sign` yields `None` for a missing file.
`sha` abstracts the SHA-256 hex digest. -/
def interface_bind_sign (fs : FSM) (targetDir rel url : String)
    (sha : String → String) :
    List (String × (String × String × Option String)) :=
  hookSuffixes.map (fun hook =>
    ("hooks/" ++ rel ++ "-relation-" ++ hook,
     (url, "dynamic", (fsGet fs (bindHookPath targetDir rel hook)).map
        (fun f => sha f.text))))

/-- Model of `InterfaceCopy.__call__`: destination is
`hooks/relations/<interface-name>` under the target layer; if it
already exists the tactic returns immediately (the source's
`XXX: fix this to do actual updates`).  Otherwise every interface file
passing the ignore matcher is copied (content and mode), and an empty
`__init__.py` is created at the destination root if absent. -/
def interface_copy_call (fs : FSM) (targetLayerDir ifaceName : String)
    (srcFiles : List (String × FileM)) (matcher : String → Bool) : FSM :=
  let tgt := targetLayerDir ++ "/hooks/relations/" ++ ifaceName
  if dirExists fs tgt then fs
  else
    let fs1 := srcFiles.foldl (fun acc rf =>
      if matcher rf.1 then
        let tp := tgt ++ "/" ++ rf.1
        let acc1 := if dirExists acc (dirname tp) then acc
                    else mkdirp acc (dirname tp)
        fsWrite acc1 tp rf.2
      else acc) fs
    let initP := tgt ++ "/__init__.py"
    if (fsGet fs1 initP).isSome then fs1
    else fsWrite fs1 initP { text := "", mode := 420 }

/-! # Theorems -/

theorem getKeyV_setKeyV (m : List (String × Val)) (k k' : String) (v : Val) :
    getKeyV (setKeyV m k v) k' = if k' = k then some v else getKeyV m k' := by
  induction m with
  | nil =>
      rcases eq_or_ne k' k with h | h
      · subst h; simp [setKeyV, getKeyV]
      · simp [setKeyV, getKeyV, h, Ne.symm h]
  | cons kv rest ih =>
      obtain ⟨k1, v1⟩ := kv
      rcases eq_or_ne k1 k with h1 | h1
      · subst h1
        rcases eq_or_ne k' k1 with h2 | h2
        · subst h2; simp [setKeyV, getKeyV]
        · simp [setKeyV, getKeyV, h2, Ne.symm h2]
      · rcases eq_or_ne k' k with h2 | h2
        · subst h2
          simp [setKeyV, getKeyV, h1, ih, Ne.symm h1]
        · simp [setKeyV, getKeyV, h1, ih, h2]

theorem getKeyV_delKeyV_self (m : List (String × Val)) (k : String) :
    getKeyV (delKeyV m k) k = none := by
  induction m with
  | nil => simp [delKeyV, getKeyV]
  | cons kv rest ih =>
      obtain ⟨k1, v1⟩ := kv
      rcases eq_or_ne k1 k with h | h
      · subst h
        simpa [delKeyV, getKeyV] using ih
      · simpa [delKeyV, getKeyV, h] using ih

/-- C4 counterexample.  The claim says that whenever the two sides are
not both mappings the source value replaces the destination value; at
`dest = {a: 1}`, `src = {a: {b: 2}}` the destination value `1` is not a
mapping, so the claim requires the replacement `{a: {b: 2}}` (as
`deepmergeSpec`, written from the claim's words, computes).  The code
instead tests only the truthiness of `dest.get(k)`, recurses into the
scalar `1`, and crashes (`AttributeError: 'int' object has no
attribute 'get'`). -/
theorem deepmerge_scalar_dest_counterexample :
    deepmerge (Val.vmap [("a", Val.vint 1)])
        (Val.vmap [("a", Val.vmap [("b", Val.vint 2)])])
      = Except.error ()
    ∧ deepmergeSpec (Val.vmap [("a", Val.vint 1)])
        (Val.vmap [("a", Val.vmap [("b", Val.vint 2)])])
      = Val.vmap [("a", Val.vmap [("b", Val.vint 2)])] :=
  ⟨rfl, rfl⟩

/-- C4 (amended).  `deepmerge` visits each key of `src` in order; when
the `src` value is a mapping and the `dest` value at that key is
*truthy* it recurses into the `dest` value — recursing into a non-empty
mapping when the `dest` value is one (conjunct 3), raising an error
when the `dest` value is truthy but not a mapping and the `src` mapping
is non-empty (conjunct 4), and leaving the `dest` value unchanged when
the `src` mapping is empty (conjunct 5); in every other case (absent or
falsy `dest` value, or a `src` value that is not a mapping — sequences
and scalars alike) the `src` value replaces the `dest` value as a deep
copy (conjunct 2), so sequences are replaced, never concatenated. -/
theorem deepmerge_amended :
    (∀ d : Val, deepmerge d (Val.vmap []) = Except.ok d)
    ∧ (∀ (m : List (String × Val)) (k : String) (v : Val)
          (rest : List (String × Val)),
        (truthyV ((getKeyV m k).getD Val.vnull) && isMapV v) = false →
        deepmergePairs (Val.vmap m) ((k, v) :: rest)
          = deepmergePairs (Val.vmap (setKeyV m k v)) rest)
    ∧ (∀ (m dm : List (String × Val)) (k : String)
          (sp rest : List (String × Val)),
        getKeyV m k = some (Val.vmap dm) → dm ≠ [] →
        deepmergePairs (Val.vmap m) ((k, Val.vmap sp) :: rest)
          = match deepmergePairs (Val.vmap dm) sp with
            | .ok r => deepmergePairs (Val.vmap (setKeyV m k r)) rest
            | .error e => .error e)
    ∧ (∀ (m : List (String × Val)) (k : String) (dv : Val)
          (s0 : String × Val) (sp rest : List (String × Val)),
        getKeyV m k = some dv → truthyV dv = true → isMapV dv = false →
        deepmergePairs (Val.vmap m) ((k, Val.vmap (s0 :: sp)) :: rest)
          = Except.error ())
    ∧ (∀ (m : List (String × Val)) (k : String) (dv : Val)
          (rest : List (String × Val)),
        getKeyV m k = some dv → truthyV dv = true →
        deepmergePairs (Val.vmap m) ((k, Val.vmap []) :: rest)
          = deepmergePairs (Val.vmap (setKeyV m k dv)) rest) := by
  refine ⟨fun d => rfl, ?_, ?_, ?_, ?_⟩
  · intro m k v rest hc
    simp only [deepmergePairs, hc, Bool.false_eq_true, if_false]
  · intro m dm k sp rest hg hne
    have h3 : truthyV (Val.vmap dm) = true := by
      simpa [truthyV, List.isEmpty_iff] using hne
    simp [deepmergePairs, hg, h3, isMapV, deepmerge]
  · intro m k dv s0 sp rest hg htru hnm
    cases dv with
    | vmap dm => simp [isMapV] at hnm
    | vnull => simp [truthyV] at htru
    | vbool b =>
        have hc : (truthyV (Val.vbool b) && isMapV (Val.vmap (s0 :: sp))) = true := by
          simp [htru, isMapV]
        simp [deepmergePairs, hg, hc, deepmerge]
    | vint n =>
        have hc : (truthyV (Val.vint n) && isMapV (Val.vmap (s0 :: sp))) = true := by
          simp [htru, isMapV]
        simp [deepmergePairs, hg, hc, deepmerge]
    | vstr s =>
        have hc : (truthyV (Val.vstr s) && isMapV (Val.vmap (s0 :: sp))) = true := by
          simp [htru, isMapV]
        simp [deepmergePairs, hg, hc, deepmerge]
    | vlist l =>
        have hc : (truthyV (Val.vlist l) && isMapV (Val.vmap (s0 :: sp))) = true := by
          simp [htru, isMapV]
        simp [deepmergePairs, hg, hc, deepmerge]
  · intro m k dv rest hg htru
    have hc : (truthyV dv && isMapV (Val.vmap [])) = true := by
      simp [htru, isMapV]
    simp [deepmergePairs, hg, hc, deepmerge]

/-- Witness for C4 (amended) at concrete inputs: a sequence-valued key
is replaced (not concatenated), a truthy non-mapping destination value
against a non-empty source mapping errors, and an empty source mapping
leaves the truthy destination value unchanged. -/
theorem deepmerge_amended_witness :
    deepmergePairs (Val.vmap [("s", Val.vlist [Val.vint 1, Val.vint 2])])
        [("s", Val.vlist [Val.vint 3])]
      = Except.ok (Val.vmap [("s", Val.vlist [Val.vint 3])])
    ∧ deepmergePairs (Val.vmap [("a", Val.vint 1)])
        [("a", Val.vmap [("b", Val.vint 2)])]
      = Except.error ()
    ∧ deepmergePairs (Val.vmap [("a", Val.vint 1)]) [("a", Val.vmap [])]
      = Except.ok (Val.vmap [("a", Val.vint 1)]) := by
  refine ⟨?_, ?_, ?_⟩
  · rw [deepmerge_amended.2.1 [("s", Val.vlist [Val.vint 1, Val.vint 2])] "s"
      (Val.vlist [Val.vint 3]) [] (by rfl)]
    rfl
  · exact deepmerge_amended.2.2.2.1 [("a", Val.vint 1)] "a" (Val.vint 1)
      ("b", Val.vint 2) [] [] (by rfl) (by rfl) (by rfl)
  · rw [deepmerge_amended.2.2.2.2 [("a", Val.vint 1)] "a" (Val.vint 1) []
      (by rfl) (by rfl)]
    rfl

theorem deletePathParts_isOk (parts : List String) (d : Val) :
    (deletePathParts parts d).isOk = presentPath parts d := by
  induction parts generalizing d with
  | nil => cases d <;> rfl
  | cons p rest ih =>
      cases rest with
      | nil =>
          cases d with
          | vmap m =>
              by_cases h : hasKeyV m p
              · simp [deletePathParts, presentPath, h, Except.isOk, Except.toBool]
              · simp [deletePathParts, presentPath, h, Except.isOk, Except.toBool]
          | vnull => rfl
          | vbool b => rfl
          | vint n => rfl
          | vstr s => rfl
          | vlist l => rfl
      | cons q rest' =>
          cases d with
          | vmap m =>
              cases hg : getKeyV m p with
              | none => simp [deletePathParts, presentPath, hg, Except.isOk, Except.toBool]
              | some v =>
                  have h2 := ih v
                  cases hr : deletePathParts (q :: rest') v with
                  | ok v' =>
                      rw [hr] at h2
                      simp [deletePathParts, presentPath, hg, hr, ← h2,
                        Except.isOk, Except.toBool]
                  | error e =>
                      rw [hr] at h2
                      simp [deletePathParts, presentPath, hg, hr, ← h2,
                        Except.isOk, Except.toBool]
          | vnull => rfl
          | vbool b => rfl
          | vint n => rfl
          | vstr s => rfl
          | vlist l => rfl

theorem deletePathParts_removes (parts : List String) (d r : Val) :
    deletePathParts parts d = Except.ok r → presentPath parts r = false := by
  induction parts generalizing d r with
  | nil => intro h; simp [deletePathParts] at h
  | cons p rest ih =>
      cases rest with
      | nil =>
          intro h
          cases d <;> simp [deletePathParts] at h
          case vmap m =>
            by_cases hk : hasKeyV m p
            · rw [if_pos hk] at h
              cases h
              simp [presentPath, hasKeyV, getKeyV_delKeyV_self]
            · rw [if_neg hk] at h
              cases h
      | cons q rest' =>
          intro h
          cases d <;> simp only [deletePathParts] at h
          case vnull => cases h
          case vbool b => cases h
          case vint n => cases h
          case vstr s => cases h
          case vlist l => cases h
          case vmap m =>
            split at h
            case h_1 v hg =>
              split at h
              case h_1 v' hr =>
                cases h
                simp [presentPath, getKeyV_setKeyV, ih v v' hr]
              case h_2 e hr => cases h
            case h_2 hg => cases h

/-- C9.  `delete_path` fails on a missing final key as well: for every
dotted path and document, the delete succeeds exactly when every
component — intermediate mappings and the final key alike — is present
(`presentPath`), and a successful delete removes the addressed entry,
so the dotted path is no longer present afterwards.  In particular a
path whose intermediate mappings exist but whose final key is absent
yields an error (`KeyError` in the source), not a no-op. -/
theorem delete_path_final_key (p : String) (d : Val) :
    ((delete_path p d).isOk = presentPath (splitDots p) d)
    ∧ (∀ r : Val, delete_path p d = Except.ok r →
        presentPath (splitDots p) r = false) := by
  constructor
  · exact deletePathParts_isOk (splitDots p) d
  · intro r h
    exact deletePathParts_removes (splitDots p) d r h

/-- Witness for C9 at concrete inputs: deleting `a.b` from
`{a: {c: 2}}` (final key missing) fails, and deleting `a.b` from
`{a: {b: 1, c: 2}}` succeeds with `a.b` gone afterwards. -/
theorem delete_path_final_key_witness :
    (delete_path "a.b" (Val.vmap [("a", Val.vmap [("c", Val.vint 2)])])).isOk = false
    ∧ presentPath (splitDots "a.b")
        (Val.vmap [("a", Val.vmap [("c", Val.vint 2)])]) = false := by
  constructor
  · rw [(delete_path_final_key "a.b" (Val.vmap [("a", Val.vmap [("c", Val.vint 2)])])).1]
    rfl
  · exact (delete_path_final_key "a.b"
      (Val.vmap [("a", Val.vmap [("b", Val.vint 1), ("c", Val.vint 2)])])).2
      (Val.vmap [("a", Val.vmap [("c", Val.vint 2)])]) (by rfl)

theorem findVal_updVal {α : Type} (m : List (String × α)) (k k' : String) (v : α) :
    findVal (updVal m k v) k' = if k' = k then some v else findVal m k' := by
  induction m with
  | nil =>
      rcases eq_or_ne k' k with h | h
      · subst h; simp [updVal, findVal]
      · simp [updVal, findVal, h, Ne.symm h]
  | cons kv rest ih =>
      obtain ⟨k1, v1⟩ := kv
      rcases eq_or_ne k1 k with h1 | h1
      · subst h1
        rcases eq_or_ne k' k1 with h2 | h2
        · subst h2; simp [updVal, findVal]
        · simp [updVal, findVal, h2, Ne.symm h2]
      · rcases eq_or_ne k' k with h2 | h2
        · subst h2
          simp [updVal, findVal, h1, ih, Ne.symm h1]
        · simp [updVal, findVal, h1, ih, h2]

theorem findVal_none_iff {α : Type} (m : List (String × α)) (k : String) :
    findVal m k = none ↔ ∀ kv ∈ m, kv.1 ≠ k := by
  induction m with
  | nil => simp [findVal]
  | cons kv rest ih =>
      obtain ⟨k1, v1⟩ := kv
      rcases eq_or_ne k1 k with h | h
      · subst h; simp [findVal]
      · simp [findVal, h, ih]

theorem updVal_entry_mem {α : Type} (m : List (String × α)) (k : String) (v : α) :
    ∀ kv ∈ updVal m k v, kv = (k, v) ∨ kv ∈ m := by
  induction m with
  | nil => simp [updVal]
  | cons kv0 rest ih =>
      obtain ⟨k1, v1⟩ := kv0
      rcases eq_or_ne k1 k with h | h
      · subst h
        intro kv hkv
        simp [updVal] at hkv
        rcases hkv with h2 | h2
        · exact Or.inl (by rw [h2])
        · exact Or.inr (by simp [h2])
      · intro kv hkv
        simp [updVal, h] at hkv
        rcases hkv with h2 | h2
        · exact Or.inr (by simp [h2])
        · rcases ih kv h2 with h3 | h3
          · exact Or.inl h3
          · exact Or.inr (by simp [h3])

theorem updVal_keys {α : Type} (m : List (String × α)) (k : String) (v : α) :
    (updVal m k v).map Prod.fst
      = if (findVal m k).isSome then m.map Prod.fst else m.map Prod.fst ++ [k] := by
  induction m with
  | nil => simp [updVal, findVal]
  | cons kv rest ih =>
      obtain ⟨k1, v1⟩ := kv
      rcases eq_or_ne k1 k with h | h
      · subst h; simp [updVal, findVal]
      · simp [updVal, findVal, h, ih]
        split <;> simp

theorem keysNodup_updVal {α : Type} (m : List (String × α)) (k : String) (v : α)
    (h : (m.map Prod.fst).Nodup) : ((updVal m k v).map Prod.fst).Nodup := by
  rw [updVal_keys]
  cases hf : (findVal m k).isSome with
  | true => simpa using h
  | false =>
      simp only [Bool.false_eq_true, if_false]
      have hk : ∀ kv ∈ m, kv.1 ≠ k := by
        apply (findVal_none_iff m k).mp
        cases hfk : findVal m k with
        | none => rfl
        | some x => rw [hfk] at hf; cases hf
      have hknot : k ∉ m.map Prod.fst := by
        intro hmem
        rcases List.mem_map.mp hmem with ⟨kv, hkv, hEq⟩
        exact hk kv hkv hEq
      simp [List.nodup_append, h, hknot]

/-- `combine` keeps the new tactic's relative path. -/
theorem combineT_rel (cur ex : TacticM) : (combineT cur ex).rel = cur.rel := by
  cases cur with
  | mk k r c cfg t f =>
      by_cases h : isSerialized k = true <;>
        simp [combineT, TacticM.klass, TacticM.setFolded, TacticM.rel, h]

/-- `combine` keeps the new tactic's class. -/
theorem combineT_klass (cur ex : TacticM) : (combineT cur ex).klass = cur.klass := by
  cases cur with
  | mk k r c cfg t f =>
      by_cases h : isSerialized k = true <;>
        simp [combineT, TacticM.klass, TacticM.setFolded, h]

/-- `combine` keeps the new tactic's owning layer. -/
theorem combineT_current (cur ex : TacticM) :
    (combineT cur ex).current = cur.current := by
  cases cur with
  | mk k r c cfg t f =>
      by_cases h : isSerialized k = true <;>
        simp [combineT, TacticM.klass, TacticM.setFolded, TacticM.current, h]

theorem newEntry_rel (fm : String → String → Bool) (target layer : LayerM)
    (cfg : Option LayerCfg) (outF : List (String × Option TacticM)) (rel : String) :
    ∀ t : TacticM, newEntry fm target layer cfg outF rel = some t → t.rel = rel := by
  intro t h
  unfold newEntry at h
  cases hg : (findVal outF rel).getD none with
  | some ex =>
      rw [hg] at h
      cases ht : tacticFor fm cfg rel with
      | none => rw [ht] at h; cases h
      | some k =>
          rw [ht] at h
          simp at h
          rw [← h, combineT_rel]
          rfl
  | none =>
      rw [hg] at h
      cases ht : tacticFor fm cfg rel with
      | none => rw [ht] at h; cases h
      | some k =>
          rw [ht] at h
          simp at h
          rw [← h]
          rfl

theorem newEntry_congr (fm : String → String → Bool) (target layer : LayerM)
    (cfg : Option LayerCfg) (o1 o2 : List (String × Option TacticM)) (rel : String)
    (h : findVal o1 rel = findVal o2 rel) :
    newEntry fm target layer cfg o1 rel = newEntry fm target layer cfg o2 rel := by
  unfold newEntry
  rw [h]

theorem build_tactics_ok (fm : String → String → Bool) (target layer : LayerM)
    (cfg : Option LayerCfg) (outF : List (String × Option TacticM)) (rel : String)
    (hc : (findVal outF rel).getD none = none ∨ (tacticFor fm cfg rel).isSome = true) :
    build_tactics fm target layer cfg outF rel
      = .ok (updVal outF rel (newEntry fm target layer cfg outF rel)) := by
  unfold build_tactics newEntry
  cases hg : (findVal outF rel).getD none with
  | some ex =>
      cases ht : tacticFor fm cfg rel with
      | none =>
          rcases hc with h | h
          · rw [hg] at h; cases h
          · rw [ht] at h; cases h
      | some k => simp
  | none => simp

theorem walkFiles_spec (fm : String → String → Bool) (target layer : LayerM)
    (cfg : Option LayerCfg) :
    ∀ (fs : List String) (outF : List (String × Option TacticM)),
    fs.Nodup →
    (∀ r ∈ fs, (findVal outF r).getD none = none ∨ (tacticFor fm cfg r).isSome = true) →
    ∃ out, walkFiles fm target layer cfg fs outF = .ok out
      ∧ (∀ r, r ∉ fs → findVal out r = findVal outF r)
      ∧ (∀ r ∈ fs, findVal out r = some (newEntry fm target layer cfg outF r)) := by
  intro fs
  induction fs with
  | nil =>
      intro outF _ _
      exact ⟨outF, rfl, fun r _ => rfl, fun r hr => absurd hr (List.not_mem_nil r)⟩
  | cons r rest ih =>
      intro outF hnd hcond
      have hb := build_tactics_ok fm target layer cfg outF r
        (hcond r (List.mem_cons_self r rest))
      have hnd' := List.nodup_cons.mp hnd
      have hlook : ∀ r' ∈ rest,
          findVal (updVal outF r (newEntry fm target layer cfg outF r)) r'
            = findVal outF r' := by
        intro r' hr'
        rw [findVal_updVal]
        have : r' ≠ r := fun hEq => hnd'.1 (hEq ▸ hr')
        simp [this]
      have hcond' : ∀ r' ∈ rest,
          (findVal (updVal outF r (newEntry fm target layer cfg outF r)) r').getD none
            = none ∨ (tacticFor fm cfg r').isSome = true := by
        intro r' hr'
        rw [hlook r' hr']
        exact hcond r' (List.mem_cons_of_mem r hr')
      rcases ih (updVal outF r (newEntry fm target layer cfg outF r)) hnd'.2 hcond'
        with ⟨out, hw, hnin, hin⟩
      refine ⟨out, ?_, ?_, ?_⟩
      · simp [walkFiles, hb, hw]
      · intro r'' hr''
        have hne : r'' ≠ r := fun hEq => hr'' (hEq ▸ List.mem_cons_self r rest)
        have hnr : r'' ∉ rest := fun hmem => hr'' (List.mem_cons_of_mem r hmem)
        rw [hnin r'' hnr, findVal_updVal]
        simp [hne]
      · intro r'' hr''
        rcases List.mem_cons.mp hr'' with hEq | hmem
        · subst hEq
          rw [hnin r'' hnd'.1, findVal_updVal]
          simp
        · rw [hin r'' hmem,
            newEntry_congr fm target layer cfg _ outF r'' (hlook r'' hmem)]

theorem walkFiles_good (fm : String → String → Bool) (target layer : LayerM)
    (cfg : Option LayerCfg) :
    ∀ (fs : List String) (outF out : List (String × Option TacticM)),
    (∀ kv ∈ outF, ∀ t : TacticM, kv.2 = some t → t.rel = kv.1) →
    (outF.map Prod.fst).Nodup →
    walkFiles fm target layer cfg fs outF = .ok out →
    (∀ kv ∈ out, ∀ t : TacticM, kv.2 = some t → t.rel = kv.1)
      ∧ (out.map Prod.fst).Nodup := by
  intro fs
  induction fs with
  | nil =>
      intro outF out hinv hnd hw
      cases hw
      exact ⟨hinv, hnd⟩
  | cons r rest ih =>
      intro outF out hinv hnd hw
      unfold walkFiles at hw
      cases hb : build_tactics fm target layer cfg outF r with
      | error e => rw [hb] at hw; cases hw
      | ok out1 =>
          rw [hb] at hw
          have hout1 : out1 = updVal outF r (newEntry fm target layer cfg outF r) := by
            unfold build_tactics at hb
            cases hg : (findVal outF r).getD none with
            | some ex =>
                rw [hg] at hb
                cases ht : tacticFor fm cfg r with
                | none => rw [ht] at hb; simp at hb
                | some k =>
                    rw [ht] at hb
                    simp at hb
                    unfold newEntry
                    rw [hg, ht]
                    simp [← hb]
            | none =>
                rw [hg] at hb
                simp at hb
                unfold newEntry
                rw [hg]
                simp [← hb]
          have hinv1 : ∀ kv ∈ out1, ∀ t : TacticM, kv.2 = some t → t.rel = kv.1 := by
            rw [hout1]
            intro kv hkv t hkt
            rcases updVal_entry_mem outF r (newEntry fm target layer cfg outF r) kv hkv
                with hEq | hmem
            · subst hEq
              exact newEntry_rel fm target layer cfg outF r t hkt
            · exact hinv kv hmem t hkt
          have hnd1 : (out1.map Prod.fst).Nodup := by
            rw [hout1]
            exact keysNodup_updVal outF r _ hnd
          exact ih out1 out hinv1 hnd1 hw

theorem planOf_filter_none (out : List (String × Option TacticM)) (p : String)
    (hnk : ∀ kv ∈ out, kv.1 ≠ p)
    (hinv : ∀ kv ∈ out, ∀ t : TacticM, kv.2 = some t → t.rel = kv.1) :
    (planOf out).filter (fun t => t.rel == p) = [] := by
  induction out with
  | nil => rfl
  | cons kv rest ih =>
      obtain ⟨k1, v1⟩ := kv
      have hk1 : k1 ≠ p := hnk (k1, v1) (List.mem_cons_self _ _)
      cases v1 with
      | none =>
          simp only [planOf, List.filterMap] at ih ⊢
          exact ih (fun kv h => hnk kv (List.mem_cons_of_mem _ h))
            (fun kv h => hinv kv (List.mem_cons_of_mem _ h))
      | some t =>
          have htr : t.rel = k1 := hinv (k1, some t) (List.mem_cons_self _ _) t rfl
          have hne : (t.rel == p) = false :=
            beq_eq_false_iff_ne.mpr (htr ▸ hk1)
          simp only [planOf, List.filterMap, List.filter, hne]
          exact ih (fun kv h => hnk kv (List.mem_cons_of_mem _ h))
            (fun kv h => hinv kv (List.mem_cons_of_mem _ h))

theorem planOf_filter_unique (out : List (String × Option TacticM)) (p : String)
    (T : TacticM) (hnd : (out.map Prod.fst).Nodup)
    (hinv : ∀ kv ∈ out, ∀ t : TacticM, kv.2 = some t → t.rel = kv.1)
    (hfind : findVal out p = some (some T)) :
    (planOf out).filter (fun t => t.rel == p) = [T] := by
  induction out with
  | nil => simp [findVal] at hfind
  | cons kv rest ih =>
      obtain ⟨k1, v1⟩ := kv
      have hnd0 : (k1 :: rest.map Prod.fst).Nodup := by simpa using hnd
      have hnd' := List.nodup_cons.mp hnd0
      rcases eq_or_ne k1 p with hEq | hne
      · subst hEq
        simp only [findVal, if_pos rfl] at hfind
        cases hfind
        have htr : T.rel = k1 := hinv (k1, some T) (List.mem_cons_self _ _) T rfl
        have htb : (T.rel == k1) = true := beq_iff_eq.mpr htr
        simp only [planOf, List.filterMap, List.filter, htb]
        have hrest : (planOf rest).filter (fun t => t.rel == k1) = [] := by
          apply planOf_filter_none
          · intro kv hkv hke
            exact hnd'.1 (hke ▸ List.mem_map_of_mem Prod.fst hkv)
          · intro kv hkv t ht
            exact hinv kv (List.mem_cons_of_mem _ hkv) t ht
        simp only [planOf] at hrest
        rw [hrest]
      · have hfind' : findVal rest p = some (some T) := by
          rw [show findVal ((k1, v1) :: rest) p
              = if k1 = p then some v1 else findVal rest p from rfl,
            if_neg hne] at hfind
          exact hfind
        have ihr := ih (by simpa using hnd'.2)
          (fun kv h => hinv kv (List.mem_cons_of_mem _ h)) hfind'
        cases v1 with
        | none =>
            simpa [planOf, List.filterMap] using ihr
        | some t =>
            have htr : t.rel = k1 := hinv (k1, some t) (List.mem_cons_self _ _) t rfl
            have hneb : (t.rel == p) = false :=
              beq_eq_false_iff_ne.mpr (htr ▸ hne)
            simp only [planOf, List.filterMap, List.filter, hneb]
            simpa [planOf] using ihr

/-- The dispatch fallback: without an ignore match, some tactic is
always returned (`CopyTactic` triggers on everything). -/
theorem tacticFor_none_isSome (fm : String → String → Bool) (rel : String) :
    (tacticFor fm none rel).isSome = true := by
  have hbase : tacticFor fm none rel
      = DEFAULT_TACTICS.find? (fun t => trigger t rel) := by
    simp [tacticFor, ignoredBy]
  rw [hbase]
  cases hf : DEFAULT_TACTICS.find? (fun t => trigger t rel) with
  | some t => rfl
  | none =>
      have := List.find?_eq_none.mp hf TClass.CopyTactic (by simp [DEFAULT_TACTICS])
      exact absurd rfl this

/-- C5.  Layer precedence.  For a path `p` contributed by a lower
layer `L1` and a higher layer `L2` (and not suppressed by `L2`'s
ignore patterns), the finished plan holds exactly one tactic for `p`
(the filtered plan is the singleton): the tactic dispatched for `L2`,
folded over `L1`'s via `combine`; its owning layer is `L2` and its
manifest signature names `L2`'s two-segment repo-relative reference as
origin. -/
theorem plan_layer_precedence (fm : String → String → Bool)
    (L1 L2 target : LayerM) (p : String)
    (h1 : p ∈ L1.files) (h2 : p ∈ L2.files)
    (hn1 : L1.files.Nodup) (hn2 : L2.files.Nodup)
    (hig : ignoredBy fm L2.cfg p = false) :
    ∃ (out : List (String × Option TacticM)) (k : TClass),
      plan_layers fm target [L1, L2] [] = .ok out
      ∧ tacticFor fm none p = some k
      ∧ findVal out p = some (some (combineT (mkTactic k p L2 none target)
            (mkTactic k p L1 L2.cfg target)))
      ∧ (combineT (mkTactic k p L2 none target)
            (mkTactic k p L1 L2.cfg target)).current = L2
      ∧ (combineT (mkTactic k p L2 none target)
            (mkTactic k p L1 L2.cfg target)).repoPath = lastTwoJoined L2.dirParts
      ∧ (∀ sha : String,
          (combineT (mkTactic k p L2 none target)
            (mkTactic k p L1 L2.cfg target)).sign true sha
            = [(p, (lastTwoJoined L2.dirParts, kindOf k, sha))])
      ∧ (planOf out).filter (fun t => t.rel == p)
          = [combineT (mkTactic k p L2 none target)
               (mkTactic k p L1 L2.cfg target)] := by
  have hsome := tacticFor_none_isSome fm p
  cases hk : tacticFor fm none p with
  | none => rw [hk] at hsome; cases hsome
  | some k =>
  have hfindk : DEFAULT_TACTICS.find? (fun t => trigger t p) = some k := by
    have : tacticFor fm none p = DEFAULT_TACTICS.find? (fun t => trigger t p) := by
      simp [tacticFor, ignoredBy]
    rw [← this, hk]
  have hk1 : tacticFor fm L2.cfg p = some k := by
    simp [tacticFor, hig, hfindk]
  -- first pass: L1 under L2's config, from the empty ordered dict
  rcases walkFiles_spec fm target L1 L2.cfg L1.files [] hn1
      (fun r _ => Or.inl rfl) with ⟨out1, hw1, hnin1, hin1⟩
  have hval1 : findVal out1 p
      = some (some (mkTactic k p L1 L2.cfg target)) := by
    rw [hin1 p h1]
    simp [newEntry, findVal, hk1]
  -- second pass: L2 under no config
  rcases walkFiles_spec fm target L2 none L2.files out1 hn2
      (fun r _ => Or.inr (tacticFor_none_isSome fm r)) with ⟨out, hw2, hnin2, hin2⟩
  have hval : findVal out p
      = some (some (combineT (mkTactic k p L2 none target)
          (mkTactic k p L1 L2.cfg target))) := by
    rw [hin2 p h2]
    simp [newEntry, hval1, hk]
  have hplan : plan_layers fm target [L1, L2] [] = .ok out := by
    simp [plan_layers, hw1, hw2]
  have hcur : (combineT (mkTactic k p L2 none target)
      (mkTactic k p L1 L2.cfg target)).current = L2 := by
    rw [combineT_current]
    rfl
  have hrel : (combineT (mkTactic k p L2 none target)
      (mkTactic k p L1 L2.cfg target)).rel = p := by
    rw [combineT_rel]
    rfl
  have hkl : (combineT (mkTactic k p L2 none target)
      (mkTactic k p L1 L2.cfg target)).klass = k := by
    rw [combineT_klass]
    rfl
  have hrepo : (combineT (mkTactic k p L2 none target)
      (mkTactic k p L1 L2.cfg target)).repoPath = lastTwoJoined L2.dirParts := by
    simp [TacticM.repoPath, hcur]
  refine ⟨out, k, hplan, rfl, hval, hcur, hrepo, ?_, ?_⟩
  · intro sha
    simp [TacticM.sign, hrel, hrepo, hkl]
  · have hg1 := walkFiles_good fm target L1 L2.cfg L1.files [] out1
      (by intro kv hkv; cases hkv) (by simp) hw1
    have hg2 := walkFiles_good fm target L2 none L2.files out1 out hg1.1 hg1.2 hw2
    have := planOf_filter_unique out p
      (combineT (mkTactic k p L2 none target) (mkTactic k p L1 L2.cfg target))
      hg2.2 hg2.1 hval
    exact this

/-- Witness for C5 on concrete two-layer data: both layers contribute
`metadata.yaml`; the final plan holds one tactic for it, owned by the
higher layer, with signature origin `trusty/tester`. -/
theorem plan_layer_precedence_witness :
    ∃ (out : List (String × Option TacticM)) (k : TClass),
      plan_layers (fun _ _ => false)
          (LayerM.mk ["out", "trusty", "foo"] [] none)
          [LayerM.mk ["repo", "trusty", "mysql"] ["metadata.yaml"] none,
           LayerM.mk ["repo", "trusty", "tester"] ["metadata.yaml"] none] []
        = .ok out
      ∧ tacticFor (fun _ _ => false) none "metadata.yaml" = some k
      ∧ findVal out "metadata.yaml"
          = some (some (combineT
              (mkTactic k "metadata.yaml"
                (LayerM.mk ["repo", "trusty", "tester"] ["metadata.yaml"] none)
                none (LayerM.mk ["out", "trusty", "foo"] [] none))
              (mkTactic k "metadata.yaml"
                (LayerM.mk ["repo", "trusty", "mysql"] ["metadata.yaml"] none)
                none (LayerM.mk ["out", "trusty", "foo"] [] none))))
      ∧ (combineT
            (mkTactic k "metadata.yaml"
              (LayerM.mk ["repo", "trusty", "tester"] ["metadata.yaml"] none)
              none (LayerM.mk ["out", "trusty", "foo"] [] none))
            (mkTactic k "metadata.yaml"
              (LayerM.mk ["repo", "trusty", "mysql"] ["metadata.yaml"] none)
              none (LayerM.mk ["out", "trusty", "foo"] [] none))).current
          = LayerM.mk ["repo", "trusty", "tester"] ["metadata.yaml"] none
      ∧ (combineT
            (mkTactic k "metadata.yaml"
              (LayerM.mk ["repo", "trusty", "tester"] ["metadata.yaml"] none)
              none (LayerM.mk ["out", "trusty", "foo"] [] none))
            (mkTactic k "metadata.yaml"
              (LayerM.mk ["repo", "trusty", "mysql"] ["metadata.yaml"] none)
              none (LayerM.mk ["out", "trusty", "foo"] [] none))).repoPath
          = lastTwoJoined ["repo", "trusty", "tester"]
      ∧ (∀ sha : String,
          (combineT
            (mkTactic k "metadata.yaml"
              (LayerM.mk ["repo", "trusty", "tester"] ["metadata.yaml"] none)
              none (LayerM.mk ["out", "trusty", "foo"] [] none))
            (mkTactic k "metadata.yaml"
              (LayerM.mk ["repo", "trusty", "mysql"] ["metadata.yaml"] none)
              none (LayerM.mk ["out", "trusty", "foo"] [] none))).sign true sha
            = [("metadata.yaml",
                (lastTwoJoined ["repo", "trusty", "tester"], kindOf k, sha))])
      ∧ (planOf out).filter (fun t => t.rel == "metadata.yaml")
          = [combineT
              (mkTactic k "metadata.yaml"
                (LayerM.mk ["repo", "trusty", "tester"] ["metadata.yaml"] none)
                none (LayerM.mk ["out", "trusty", "foo"] [] none))
              (mkTactic k "metadata.yaml"
                (LayerM.mk ["repo", "trusty", "mysql"] ["metadata.yaml"] none)
                none (LayerM.mk ["out", "trusty", "foo"] [] none))] :=
  plan_layer_precedence (fun _ _ => false)
    (LayerM.mk ["repo", "trusty", "mysql"] ["metadata.yaml"] none)
    (LayerM.mk ["repo", "trusty", "tester"] ["metadata.yaml"] none)
    (LayerM.mk ["out", "trusty", "foo"] [] none) "metadata.yaml"
    (by decide) (by decide) (by decide) (by decide) (by rfl)

/-- C6.  Dispatch under the default registry returns the first tactic
(in `DEFAULT_TACTICS` order) whose trigger predicate holds: it *is*
the first-match search (conjunct 1), every returned tactic's trigger
holds (conjunct 2), and a tactic is always found (conjunct 3, the
`CopyTactic` fallback).  Concretely: `.composer.manifest` selects
`ManifestTactic`, `metadata.yaml` `MetadataYAML`, `config.yaml`
`ConfigYAML`, `composer.yaml` `ComposerYAML`, a `.pypi` file
`InstallerTactic`, a file whose parent directory is `hooks` (and that
is not a `.pypi` file, which first-match gives to the installer)
`HookTactic`, one directly under `actions` likewise `ActionTactic`,
and every other path falls through to `CopyTactic`. -/
theorem tactic_dispatch_first_match :
    (∀ (fm : String → String → Bool) (rel : String),
       tacticFor fm none rel = DEFAULT_TACTICS.find? (fun t => trigger t rel))
    ∧ (∀ (fm : String → String → Bool) (rel : String) (t : TClass),
        tacticFor fm none rel = some t → trigger t rel = true)
    ∧ (∀ (fm : String → String → Bool) (rel : String),
        (tacticFor fm none rel).isSome = true)
    ∧ (∀ fm : String → String → Bool,
        tacticFor fm none ".composer.manifest" = some TClass.ManifestTactic)
    ∧ (∀ fm : String → String → Bool,
        tacticFor fm none "metadata.yaml" = some TClass.MetadataYAML)
    ∧ (∀ fm : String → String → Bool,
        tacticFor fm none "config.yaml" = some TClass.ConfigYAML)
    ∧ (∀ fm : String → String → Bool,
        tacticFor fm none "composer.yaml" = some TClass.ComposerYAML)
    ∧ (∀ (fm : String → String → Bool) (rel : String),
        splitextExt rel = ".pypi" →
        tacticFor fm none rel = some TClass.InstallerTactic)
    ∧ (∀ (fm : String → String → Bool) (rel : String),
        dirname rel = "hooks" → splitextExt rel ≠ ".pypi" →
        tacticFor fm none rel = some TClass.HookTactic)
    ∧ (∀ (fm : String → String → Bool) (rel : String),
        dirname rel = "actions" → splitextExt rel ≠ ".pypi" →
        tacticFor fm none rel = some TClass.ActionTactic)
    ∧ (∀ (fm : String → String → Bool) (rel : String),
        rel ≠ ".composer.manifest" → splitextExt rel ≠ ".pypi" →
        rel ≠ "metadata.yaml" → rel ≠ "config.yaml" → rel ≠ "composer.yaml" →
        dirname rel ≠ "hooks" → dirname rel ≠ "actions" →
        tacticFor fm none rel = some TClass.CopyTactic) := by
  have hbase : ∀ (fm : String → String → Bool) (rel : String),
      tacticFor fm none rel = DEFAULT_TACTICS.find? (fun t => trigger t rel) := by
    intro fm rel
    simp [tacticFor, ignoredBy]
  refine ⟨hbase, ?_, ?_, ?_, ?_, ?_, ?_, ?_, ?_, ?_, ?_⟩
  · intro fm rel t h
    rw [hbase] at h
    have h2 := List.find?_some h
    simpa using h2
  · intro fm rel
    rw [hbase]
    cases hf : DEFAULT_TACTICS.find? (fun t => trigger t rel) with
    | some t => rfl
    | none =>
        have := List.find?_eq_none.mp hf TClass.CopyTactic (by simp [DEFAULT_TACTICS])
        exact absurd rfl this
  · intro fm; rw [hbase]; rfl
  · intro fm; rw [hbase]; rfl
  · intro fm; rw [hbase]; rfl
  · intro fm; rw [hbase]; rfl
  · intro fm rel hext
    have hne : rel ≠ ".composer.manifest" := by
      intro hc; rw [hc] at hext; exact absurd hext (by decide)
    have h1 : trigger TClass.ManifestTactic rel = false :=
      beq_eq_false_iff_ne.mpr hne
    have h2 : trigger TClass.InstallerTactic rel = true :=
      beq_iff_eq.mpr hext
    rw [hbase]
    simp [DEFAULT_TACTICS, List.find?, h1, h2]
  · intro fm rel hdir hext
    have hne1 : rel ≠ ".composer.manifest" := by
      intro hc; rw [hc] at hdir; exact absurd hdir (by decide)
    have hne3 : rel ≠ "metadata.yaml" := by
      intro hc; rw [hc] at hdir; exact absurd hdir (by decide)
    have hne4 : rel ≠ "config.yaml" := by
      intro hc; rw [hc] at hdir; exact absurd hdir (by decide)
    have hne5 : rel ≠ "composer.yaml" := by
      intro hc; rw [hc] at hdir; exact absurd hdir (by decide)
    have h1 : trigger TClass.ManifestTactic rel = false :=
      beq_eq_false_iff_ne.mpr hne1
    have h2 : trigger TClass.InstallerTactic rel = false :=
      beq_eq_false_iff_ne.mpr hext
    have h3 : trigger TClass.MetadataYAML rel = false :=
      beq_eq_false_iff_ne.mpr hne3
    have h4 : trigger TClass.ConfigYAML rel = false :=
      beq_eq_false_iff_ne.mpr hne4
    have h5 : trigger TClass.ComposerYAML rel = false :=
      beq_eq_false_iff_ne.mpr hne5
    have h6 : trigger TClass.HookTactic rel = true :=
      beq_iff_eq.mpr hdir
    rw [hbase]
    simp [DEFAULT_TACTICS, List.find?, h1, h2, h3, h4, h5, h6]
  · intro fm rel hdir hext
    have hne1 : rel ≠ ".composer.manifest" := by
      intro hc; rw [hc] at hdir; exact absurd hdir (by decide)
    have hne3 : rel ≠ "metadata.yaml" := by
      intro hc; rw [hc] at hdir; exact absurd hdir (by decide)
    have hne4 : rel ≠ "config.yaml" := by
      intro hc; rw [hc] at hdir; exact absurd hdir (by decide)
    have hne5 : rel ≠ "composer.yaml" := by
      intro hc; rw [hc] at hdir; exact absurd hdir (by decide)
    have hne6 : dirname rel ≠ "hooks" := by
      rw [hdir]; decide
    have h1 : trigger TClass.ManifestTactic rel = false :=
      beq_eq_false_iff_ne.mpr hne1
    have h2 : trigger TClass.InstallerTactic rel = false :=
      beq_eq_false_iff_ne.mpr hext
    have h3 : trigger TClass.MetadataYAML rel = false :=
      beq_eq_false_iff_ne.mpr hne3
    have h4 : trigger TClass.ConfigYAML rel = false :=
      beq_eq_false_iff_ne.mpr hne4
    have h5 : trigger TClass.ComposerYAML rel = false :=
      beq_eq_false_iff_ne.mpr hne5
    have h6 : trigger TClass.HookTactic rel = false :=
      beq_eq_false_iff_ne.mpr hne6
    have h7 : trigger TClass.ActionTactic rel = true :=
      beq_iff_eq.mpr hdir
    rw [hbase]
    simp [DEFAULT_TACTICS, List.find?, h1, h2, h3, h4, h5, h6, h7]
  · intro fm rel hne1 hext hne3 hne4 hne5 hne6 hne7
    have h1 : trigger TClass.ManifestTactic rel = false :=
      beq_eq_false_iff_ne.mpr hne1
    have h2 : trigger TClass.InstallerTactic rel = false :=
      beq_eq_false_iff_ne.mpr hext
    have h3 : trigger TClass.MetadataYAML rel = false :=
      beq_eq_false_iff_ne.mpr hne3
    have h4 : trigger TClass.ConfigYAML rel = false :=
      beq_eq_false_iff_ne.mpr hne4
    have h5 : trigger TClass.ComposerYAML rel = false :=
      beq_eq_false_iff_ne.mpr hne5
    have h6 : trigger TClass.HookTactic rel = false :=
      beq_eq_false_iff_ne.mpr hne6
    have h7 : trigger TClass.ActionTactic rel = false :=
      beq_eq_false_iff_ne.mpr hne7
    rw [hbase]
    simp [DEFAULT_TACTICS, List.find?, h1, h2, h3, h4, h5, h6, h7]
    rfl

/-- Witness for C6 at concrete paths: a `.pypi` file anywhere selects
the installer, a plain hook file selects `HookTactic`, an action file
`ActionTactic`, and an ordinary file falls through to `CopyTactic`. -/
theorem tactic_dispatch_first_match_witness :
    tacticFor (fun _ _ => false) none "deps.pypi" = some TClass.InstallerTactic
    ∧ tacticFor (fun _ _ => false) none "hooks/install" = some TClass.HookTactic
    ∧ tacticFor (fun _ _ => false) none "actions/run" = some TClass.ActionTactic
    ∧ tacticFor (fun _ _ => false) none "README.md" = some TClass.CopyTactic := by
  refine ⟨?_, ?_, ?_, ?_⟩
  · exact tactic_dispatch_first_match.2.2.2.2.2.2.2.1
      (fun _ _ => false) "deps.pypi" (by decide)
  · exact tactic_dispatch_first_match.2.2.2.2.2.2.2.2.1
      (fun _ _ => false) "hooks/install" (by decide) (by decide)
  · exact tactic_dispatch_first_match.2.2.2.2.2.2.2.2.2.1
      (fun _ _ => false) "actions/run" (by decide) (by decide)
  · exact tactic_dispatch_first_match.2.2.2.2.2.2.2.2.2.2
      (fun _ _ => false) "README.md" (by decide) (by decide) (by decide)
      (by decide) (by decide) (by decide) (by decide)

theorem fetchBases_member_error (g : List (String × List String)) (fuel : Nat)
    (ref : String) (hni : strStartsWith ref "interface:" = false)
    (hself : ∀ acc : DepResults,
      fetch_dep g fuel ref acc = .error .recursionError) :
    ∀ (bases : List String) (acc : DepResults), ref ∈ bases →
      fetchBases g fuel bases acc = .error .recursionError := by
  intro bases
  induction bases with
  | nil => intro acc h; cases h
  | cons b rest ih =>
      intro acc hmem
      by_cases hb : strStartsWith b "interface:" = true
      · have hrb : ref ∈ rest := by
          rcases List.mem_cons.mp hmem with h | h
          · subst h; simp [hni] at hb
          · exact h
        simp [fetchBases, hb, ih _ hrb]
      · simp only [Bool.not_eq_true] at hb
        cases hd : fetch_dep g fuel b acc with
        | error e =>
            cases e
            simp [fetchBases, hb, hd]
        | ok acc' =>
            have hrb : ref ∈ rest := by
              rcases List.mem_cons.mp hmem with h | h
              · subst h; rw [hself acc] at hd; simp at hd
              · exact h
            simp [fetchBases, hb, hd, ih _ hrb]

theorem fetch_dep_cycle_aux (g : List (String × List String)) (ref : String)
    (hmem : ref ∈ includesOf g ref)
    (hni : strStartsWith ref "interface:" = false) :
    ∀ (fuel : Nat) (acc : DepResults),
      fetch_dep g fuel ref acc = .error .recursionError := by
  intro fuel
  induction fuel with
  | zero => intro acc; simp [fetch_dep]
  | succ n ih =>
      intro acc
      have hne : (includesOf g ref).isEmpty = false := by
        cases h : includesOf g ref with
        | nil => rw [h] at hmem; cases hmem
        | cons a l => simp
      simp [fetch_dep, hne,
        fetchBases_member_error g n ref hni ih (includesOf g ref) acc hmem]

/-- C3 counterexample.  The claim says an include cycle makes
dependency resolution fail with `CyclicLayerGraph`.  The code has no
visiting set and no such error: on the concrete one-layer cycle
(`trusty/a` includes `trusty/a`), running `fetch_dep` with the Python
interpreter's default recursion headroom (1000 frames) ends in
`RecursionError` — unbounded recursion — not in any cycle-specific
failure, which does not exist anywhere in the code. -/
theorem fetch_dep_cycle_counterexample :
    fetch_dep [("trusty/a", ["trusty/a"])] 1000 "trusty/a" ⟨[], []⟩
      = Except.error FetchErr.recursionError :=
  fetch_dep_cycle_aux [("trusty/a", ["trusty/a"])] "trusty/a"
    (by decide) (by decide) 1000 ⟨[], []⟩

/-- C3 (amended).  `fetch_dep` performs no cycle detection: a layer
whose `includes` reach back to itself (here: a direct self-include,
the smallest cycle) makes the depth-first expansion recurse without
bound — for *every* recursion allowance the run ends in the
interpreter's `RecursionError`, and no `CyclicLayerGraph` error is
raised (no such error exists in the code). -/
theorem fetch_dep_self_include_diverges (g : List (String × List String))
    (ref : String) (hmem : ref ∈ includesOf g ref)
    (hni : strStartsWith ref "interface:" = false) :
    ∀ (fuel : Nat) (acc : DepResults),
      fetch_dep g fuel ref acc = .error .recursionError :=
  fetch_dep_cycle_aux g ref hmem hni

/-- Witness for C3 (amended) on the concrete self-including layer at a
small concrete recursion allowance. -/
theorem fetch_dep_self_include_diverges_witness :
    fetch_dep [("trusty/a", ["trusty/a"])] 5 "trusty/a" ⟨[], []⟩
      = Except.error FetchErr.recursionError :=
  fetch_dep_self_include_diverges [("trusty/a", ["trusty/a"])] "trusty/a"
    (by decide) (by decide) 5 ⟨[], []⟩

theorem strCancelLeft (a b c : String) : a ++ b = a ++ c → b = c := by
  intro h
  have hd := congrArg String.data h
  simp only [String.data_append] at hd
  have hbc := List.append_cancel_left hd
  cases b
  cases c
  exact congrArg String.mk hbc

theorem bindHookPath_inj (t r h1 h2 : String)
    (h : bindHookPath t r h1 = bindHookPath t r h2) : h1 = h2 :=
  strCancelLeft (t ++ "/hooks/" ++ r ++ "-relation-") h1 h2 h

theorem mkdirp_files (fs : FSM) (d : String) : (mkdirp fs d).files = fs.files := by
  unfold mkdirp
  split <;> rfl

theorem fsGet_bindStep (t r : String) (acc : FSM) (hook q : String)
    (hnone : fsGet acc (bindHookPath t r hook) = none) :
    fsGet (bindStep t r acc hook) q
      = if q = bindHookPath t r hook
        then some { text := DEFAULT_BINDING r, mode := 493 }
        else fsGet acc q := by
  unfold bindStep
  simp only [hnone, Option.isSome_none, Bool.false_eq_true, if_false]
  by_cases hd : dirExists acc (t ++ "/hooks") = true
  · simp [hd, fsWrite, fsGet, findVal_updVal]
  · simp [hd, fsWrite, fsGet, findVal_updVal, mkdirp_files]

/-- C7.  Executing an `InterfaceBind` for relation `rel` on a state
where none of the four hook files exist produces exactly the files
`hooks/<rel>-relation-{joined,changed,broken,departed}` — each with
the generated binding script as content and mode `0755` — and changes
no other file; its signature map tags each of the four with origin
`url` (the interface's reference) and kind `dynamic`. -/
theorem interface_bind_four_hooks (fs : FSM) (t r url : String)
    (sha : String → String)
    (habs : ∀ hook ∈ hookSuffixes, fsGet fs (bindHookPath t r hook) = none) :
    (∀ hook ∈ hookSuffixes,
       fsGet (interface_bind_call fs t r) (bindHookPath t r hook)
         = some { text := DEFAULT_BINDING r, mode := 493 })
    ∧ (∀ q, (∀ hook ∈ hookSuffixes, q ≠ bindHookPath t r hook) →
        fsGet (interface_bind_call fs t r) q = fsGet fs q)
    ∧ interface_bind_sign (interface_bind_call fs t r) t r url sha
        = hookSuffixes.map (fun hook =>
            ("hooks/" ++ r ++ "-relation-" ++ hook,
             (url, "dynamic", some (sha (DEFAULT_BINDING r))))) := by
  have hnePath : ∀ h1 h2 : String, h1 ≠ h2 →
      bindHookPath t r h1 ≠ bindHookPath t r h2 :=
    fun h1 h2 hne h => hne (bindHookPath_inj t r h1 h2 h)
  have haj := habs "joined" (by simp [hookSuffixes])
  have hac := habs "changed" (by simp [hookSuffixes])
  have hab := habs "broken" (by simp [hookSuffixes])
  have had := habs "departed" (by simp [hookSuffixes])
  have hfs' : interface_bind_call fs t r
      = bindStep t r (bindStep t r (bindStep t r (bindStep t r fs
          "joined") "changed") "broken") "departed" := rfl
  have hget1 := fun q => fsGet_bindStep t r fs "joined" q haj
  have hc1 : fsGet (bindStep t r fs "joined") (bindHookPath t r "changed")
      = none := by
    rw [hget1]
    simp [hnePath "changed" "joined" (by decide), hac]
  have hget2 := fun q =>
    fsGet_bindStep t r (bindStep t r fs "joined") "changed" q hc1
  have hb2 : fsGet (bindStep t r (bindStep t r fs "joined") "changed")
      (bindHookPath t r "broken") = none := by
    rw [hget2, hget1]
    simp [hnePath "broken" "changed" (by decide),
      hnePath "broken" "joined" (by decide), hab]
  have hget3 := fun q =>
    fsGet_bindStep t r (bindStep t r (bindStep t r fs "joined") "changed")
      "broken" q hb2
  have hd3 : fsGet (bindStep t r (bindStep t r (bindStep t r fs "joined")
      "changed") "broken") (bindHookPath t r "departed") = none := by
    rw [hget3, hget2, hget1]
    simp [hnePath "departed" "broken" (by decide),
      hnePath "departed" "changed" (by decide),
      hnePath "departed" "joined" (by decide), had]
  have hget4 := fun q =>
    fsGet_bindStep t r (bindStep t r (bindStep t r (bindStep t r fs
      "joined") "changed") "broken") "departed" q hd3
  have hfj : fsGet (interface_bind_call fs t r) (bindHookPath t r "joined")
      = some { text := DEFAULT_BINDING r, mode := 493 } := by
    rw [hfs', hget4, hget3, hget2, hget1]
    simp [hnePath "joined" "departed" (by decide),
      hnePath "joined" "broken" (by decide),
      hnePath "joined" "changed" (by decide)]
  have hfc : fsGet (interface_bind_call fs t r) (bindHookPath t r "changed")
      = some { text := DEFAULT_BINDING r, mode := 493 } := by
    rw [hfs', hget4, hget3, hget2]
    simp [hnePath "changed" "departed" (by decide),
      hnePath "changed" "broken" (by decide)]
  have hfb : fsGet (interface_bind_call fs t r) (bindHookPath t r "broken")
      = some { text := DEFAULT_BINDING r, mode := 493 } := by
    rw [hfs', hget4, hget3]
    simp [hnePath "broken" "departed" (by decide)]
  have hfd : fsGet (interface_bind_call fs t r) (bindHookPath t r "departed")
      = some { text := DEFAULT_BINDING r, mode := 493 } := by
    rw [hfs', hget4]
    simp
  refine ⟨?_, ?_, ?_⟩
  · intro hook hmem
    simp only [hookSuffixes, List.mem_cons, List.not_mem_nil, or_false] at hmem
    rcases hmem with h | h | h | h <;> subst h
    · exact hfj
    · exact hfc
    · exact hfb
    · exact hfd
  · intro q hq
    have hqj := hq "joined" (by simp [hookSuffixes])
    have hqc := hq "changed" (by simp [hookSuffixes])
    have hqb := hq "broken" (by simp [hookSuffixes])
    have hqd := hq "departed" (by simp [hookSuffixes])
    rw [hfs', hget4, hget3, hget2, hget1]
    simp [hqj, hqc, hqb, hqd]
  · simp only [interface_bind_sign, hookSuffixes, List.map]
    rw [hfj, hfc, hfb, hfd]
    rfl

/-- Witness for C7 on the empty filesystem: binding relation `db` of
interface `interface:mysql` produces the four `db-relation-*` hooks
with mode `0755` and signs them `dynamic`. -/
theorem interface_bind_four_hooks_witness :
    (∀ hook ∈ hookSuffixes,
       fsGet (interface_bind_call ⟨[], []⟩ "out/trusty/foo" "db")
           (bindHookPath "out/trusty/foo" "db" hook)
         = some { text := DEFAULT_BINDING "db", mode := 493 })
    ∧ (∀ q, (∀ hook ∈ hookSuffixes,
          q ≠ bindHookPath "out/trusty/foo" "db" hook) →
        fsGet (interface_bind_call ⟨[], []⟩ "out/trusty/foo" "db") q
          = fsGet ⟨[], []⟩ q)
    ∧ interface_bind_sign (interface_bind_call ⟨[], []⟩ "out/trusty/foo" "db")
          "out/trusty/foo" "db" "interface:mysql" (fun _ => "deadbeef")
        = hookSuffixes.map (fun hook =>
            ("hooks/db-relation-" ++ hook,
             ("interface:mysql", "dynamic", some "deadbeef"))) :=
  interface_bind_four_hooks ⟨[], []⟩ "out/trusty/foo" "db" "interface:mysql"
    (fun _ => "deadbeef") (fun hook _ => rfl)

/-- C10.  `InterfaceCopy` is a whole-tree no-op when its destination
exists: if `hooks/relations/<interface-name>` is already present in
the target, the tactic copies nothing, creates no `__init__.py`, and
leaves the filesystem — every file byte-for-byte — unchanged, even
when the interface source holds files missing from the destination
(the source files and the ignore matcher are universally
quantified). -/
theorem interface_copy_existing_noop (fs : FSM) (tld iname : String)
    (src : List (String × FileM)) (matcher : String → Bool)
    (hex : dirExists fs (tld ++ "/hooks/relations/" ++ iname) = true) :
    interface_copy_call fs tld iname src matcher = fs
    ∧ (∀ p : String,
        fsGet (interface_copy_call fs tld iname src matcher) p = fsGet fs p) := by
  have h : interface_copy_call fs tld iname src matcher = fs := by
    unfold interface_copy_call
    simp [hex]
  exact ⟨h, fun p => by rw [h]⟩

/-- Witness for C10: the destination directory
`out/trusty/foo/hooks/relations/mysql` exists (and even holds a stale
file); copying an interface source that contains a file missing from
the destination changes nothing. -/
theorem interface_copy_existing_noop_witness :
    interface_copy_call
        ⟨[("out/trusty/foo/hooks/relations/mysql/requires.py",
           { text := "old", mode := 420 })],
         ["out/trusty/foo/hooks/relations/mysql"]⟩
        "out/trusty/foo" "mysql"
        [("provides.py", { text := "new", mode := 420 }),
         ("requires.py", { text := "new", mode := 420 })]
        (fun _ => true)
      = ⟨[("out/trusty/foo/hooks/relations/mysql/requires.py",
          { text := "old", mode := 420 })],
         ["out/trusty/foo/hooks/relations/mysql"]⟩ :=
  (interface_copy_existing_noop
    ⟨[("out/trusty/foo/hooks/relations/mysql/requires.py",
       { text := "old", mode := 420 })],
      ["out/trusty/foo/hooks/relations/mysql"]⟩
    "out/trusty/foo" "mysql"
    [("provides.py", { text := "new", mode := 420 }),
     ("requires.py", { text := "new", mode := 420 })]
    (fun _ => true) (by decide)).1

/-- C8 counterexample.  The claim says the written `composer.yaml`'s
`is` key equals the two-segment repo-relative path of the layer's
directory; but the code sets `is` only when the key is absent
(`if 'is' not in data:`).  With a source document already carrying
`is: x/y` and a current directory whose two-segment form is
`trusty/tester`, the written document keeps `x/y`. -/
theorem composer_yaml_is_preserved_counterexample :
    composer_yaml_call ["home", "trusty", "tester"]
        (some (Val.vmap [("is", Val.vstr "x/y")]))
      = Except.ok (some (Val.vmap [("is", Val.vstr "x/y")]))
    ∧ lastTwoJoined ["home", "trusty", "tester"] = "trusty/tester"
    ∧ ("x/y" = "trusty/tester" → False) :=
  ⟨rfl, rfl, by decide⟩

theorem normIncludes_eq_map (items : List Val)
    (hstr : ∀ v ∈ items, ∃ s, v = Val.vstr s) :
    normIncludes items = some (items.map normIncludeEntry) := by
  induction items with
  | nil => rfl
  | cons v rest ih =>
      rcases hstr v (List.mem_cons_self _ _) with ⟨s, hv⟩
      subst hv
      simp [normIncludes, normIncludeEntry,
        ih (fun v h => hstr v (List.mem_cons_of_mem _ h))]

/-- C8 (amended).  Applying the `ComposerYAML` tactic writes a
`composer.yaml` whose `is` key is set to the two-segment repo-relative
path of the tactic's layer directory *only when the source document
has no `is` key — an existing `is` value is preserved unchanged*;
every entry of `includes` containing no `:` is normalised to its last
two path segments joined by `/`, entries containing `:` are kept, and
all other keys are preserved unchanged. -/
theorem composer_yaml_rewrite_amended (cps : List String)
    (m : List (String × Val)) (items : List Val)
    (hinc : getKeyV m "includes" = some (Val.vlist items))
    (hstr : ∀ v ∈ items, ∃ s, v = Val.vstr s)
    (hne : items ≠ []) :
    ∃ m2 : List (String × Val),
      composer_yaml_call cps (some (Val.vmap m)) = .ok (some (Val.vmap m2))
      ∧ getKeyV m2 "is" = (if hasKeyV m "is" then getKeyV m "is"
          else some (Val.vstr (lastTwoJoined cps)))
      ∧ getKeyV m2 "includes" = some (Val.vlist (items.map normIncludeEntry))
      ∧ (∀ k : String, k ≠ "is" → k ≠ "includes" →
          getKeyV m2 k = getKeyV m k) := by
  have hnorm := normIncludes_eq_map items hstr
  have hnonempty : (items.map normIncludeEntry).isEmpty = false := by
    cases items with
    | nil => exact absurd rfl hne
    | cons a l => rfl
  by_cases his : hasKeyV m "is" = true
  · refine ⟨setKeyV m "includes" (Val.vlist (items.map normIncludeEntry)),
      ?_, ?_, ?_, ?_⟩
    · unfold composer_yaml_call
      simp [his, hinc, hnorm, hnonempty]
    · rw [getKeyV_setKeyV]
      simp [his]
    · rw [getKeyV_setKeyV]
      simp
    · intro k hk1 hk2
      rw [getKeyV_setKeyV]
      simp [hk2]
  · refine ⟨setKeyV (setKeyV m "is" (Val.vstr (lastTwoJoined cps)))
        "includes" (Val.vlist (items.map normIncludeEntry)), ?_, ?_, ?_, ?_⟩
    · unfold composer_yaml_call
      have hinc' : getKeyV (setKeyV m "is" (Val.vstr (lastTwoJoined cps)))
          "includes" = some (Val.vlist items) := by
        rw [getKeyV_setKeyV]
        simp [hinc]
      simp [his, hinc', hnorm, hnonempty]
    · rw [getKeyV_setKeyV]
      simp [his, getKeyV_setKeyV]
    · rw [getKeyV_setKeyV]
      simp
    · intro k hk1 hk2
      rw [getKeyV_setKeyV, getKeyV_setKeyV]
      simp [hk1, hk2]

/-- Witness for C8 (amended): a document without `is` whose includes
are `[trusty/mysql, interface:mysql, deep/a/b]` gets
`is: trusty/tester` and the normalised includes
`[trusty/mysql, interface:mysql, a/b]`, with the `name` key kept. -/
theorem composer_yaml_rewrite_amended_witness :
    ∃ m2 : List (String × Val),
      composer_yaml_call ["repo", "trusty", "tester"]
          (some (Val.vmap [("includes",
              Val.vlist [Val.vstr "trusty/mysql", Val.vstr "interface:mysql",
                         Val.vstr "deep/a/b"]),
            ("name", Val.vstr "tester")]))
        = .ok (some (Val.vmap m2))
      ∧ getKeyV m2 "is"
          = (if hasKeyV [("includes",
              Val.vlist [Val.vstr "trusty/mysql", Val.vstr "interface:mysql",
                         Val.vstr "deep/a/b"]),
            ("name", Val.vstr "tester")] "is"
            then getKeyV [("includes",
              Val.vlist [Val.vstr "trusty/mysql", Val.vstr "interface:mysql",
                         Val.vstr "deep/a/b"]),
              ("name", Val.vstr "tester")] "is"
            else some (Val.vstr (lastTwoJoined ["repo", "trusty", "tester"])))
      ∧ getKeyV m2 "includes"
          = some (Val.vlist ([Val.vstr "trusty/mysql", Val.vstr "interface:mysql",
              Val.vstr "deep/a/b"].map normIncludeEntry))
      ∧ (∀ k : String, k ≠ "is" → k ≠ "includes" →
          getKeyV m2 k
            = getKeyV [("includes",
                Val.vlist [Val.vstr "trusty/mysql", Val.vstr "interface:mysql",
                           Val.vstr "deep/a/b"]),
              ("name", Val.vstr "tester")] k) :=
  composer_yaml_rewrite_amended ["repo", "trusty", "tester"]
    [("includes", Val.vlist [Val.vstr "trusty/mysql", Val.vstr "interface:mysql",
        Val.vstr "deep/a/b"]),
     ("name", Val.vstr "tester")]
    [Val.vstr "trusty/mysql", Val.vstr "interface:mysql", Val.vstr "deep/a/b"]
    (by rfl)
    (by
      intro v hv
      simp at hv
      rcases hv with h | h | h <;> exact ⟨_, h⟩)
    (by simp)

/-- C1 (code bug).  With a manifest present and a non-empty delta (one
added file), the code *continues* when `--force` is absent
(`force = false`) and *raises* when `--force` is given — exactly the
opposite of the claim, of spec §4.8, and of the CLI's own
`-f` (`--force`) ("proceed despite delta-detector findings").  The branch
`if self.force is False:` in `Composer.validate` is inverted. -/
theorem validate_force_inverted :
    validate true ["hooks/start"] [] [] false = Except.ok ()
    ∧ validate true ["hooks/start"] [] [] true
        = Except.error "Unable to continue due to unexpected modifications" :=
  ⟨rfl, rfl⟩

/-- C2 (code bug).  Metadata declares `db` (interface `mysql`) and
`web` (interface `http`) under `provides`; only the `mysql` interface
was fetched.  The claim (and spec §4.6) requires tactics for `db` only
and none for `web`, whose interface matches no fetched Interface.  The
code instead appends an `InterfaceCopy` and an `InterfaceBind` for
*both* relations — the inner loop over `specs` never filters on
`interface_name` — so the unrelated relation `web` receives two
tactics bound to the `mysql` interface. -/
theorem plan_interfaces_unmatched_relation :
    plan_interfaces (some ⟨[("db", "mysql"), ("web", "http")], [], []⟩) ["mysql"]
      = Except.ok [PlanItem.interfaceCopy "mysql" "db",
                   PlanItem.interfaceBind "mysql" "db" "provides",
                   PlanItem.interfaceCopy "mysql" "web",
                   PlanItem.interfaceBind "mysql" "web" "provides"]
    ∧ List.countP (fun it => match it with
        | PlanItem.interfaceCopy _ r => r == "web"
        | PlanItem.interfaceBind _ r _ => r == "web")
        [PlanItem.interfaceCopy "mysql" "db",
         PlanItem.interfaceBind "mysql" "db" "provides",
         PlanItem.interfaceCopy "mysql" "web",
         PlanItem.interfaceBind "mysql" "web" "provides"] = 2 :=
  ⟨rfl, rfl⟩

end JujuCompose
